import Mathlib

/-!
Verification development for the Pieces collaborative text engine
(piece tree + range-tag tree CRDT with undo/redo).

The definitions below are a shallow embedding of the C++ sources
(piecetree.hpp, crdt.hpp, gb+tree.hpp, taggedptr.hpp).  Pointer-based
structures are represented by stable identifiers: stored operations are
addressed by (replica, stamp), pieces and range tags carry numeric ids,
and the two B+-tree containers are represented by the lists of their
elements in container order (the containers only expose ordered
traversal, positional search over prefix sums, and stable element
identity, so a list together with ids captures their observable
behaviour).  Text is modelled at codepoint granularity, matching the
codepoint indexing used throughout the source.  C++ assertions and
undefined behaviour are modelled as Except.error results.
-/

namespace Pieces

/-- Replica identifier (an opaque totally ordered 128-bit id in the source). -/
abbrev RID := Nat

/-- OperationID: (replica, stamp).  Identifies every stored operation. -/
structure OpId where
  replica : RID
  stamp : Nat
deriving DecidableEq, Repr

/-- StoredOperation order: by stamp, then by replica id. -/
def opLt (a b : OpId) : Bool :=
  if a.stamp ≠ b.stamp then decide (a.stamp < b.stamp) else decide (a.replica < b.replica)

/-- StatedPtr of a range op: null pointer, a concrete op, or the bad sentinel. -/
inductive OldPtr where
  | nil : OldPtr
  | ptr : OpId → OldPtr
  | bad : OldPtr
deriving DecidableEq, Repr

/-- TagStatus from the source: Active, Undone, UnUsed. -/
inductive TagStatus where
  | Active : TagStatus
  | Undone : TagStatus
  | UnUsed : TagStatus
deriving DecidableEq, Repr

/-- RangeTag: one boundary of a range operation, stored in the range-tag tree. -/
structure RangeTag where
  tid : Nat
  is_left : Bool
  status : TagStatus
  anchorSeg : OpId
  anchorPos : Nat
  cur : OpId
  old : OldPtr
deriving DecidableEq, Repr

/-- Sequence length of a UTF-8 lead byte (the sequence_length mapping of
the utf8cpp library used by the source).  The source's checked iterators
reject invalid lead bytes with an exception; the embedding maps them to
length 1 so the function is total (no claim evaluates invalid UTF-8). -/
def utf8SeqLen (b : Nat) : Nat :=
  if b < 128 then 1
  else if 192 ≤ b ∧ b < 224 then 2
  else if 224 ≤ b ∧ b < 240 then 3
  else if 240 ≤ b ∧ b < 248 then 4
  else 1

/-- Fuel-driven core of utf8 distance: count codepoints by hopping over
each lead byte's sequence. -/
def utf8DistanceAux : Nat → List Nat → Nat
  | 0, _ => 0
  | _, [] => 0
  | fuel + 1, b :: rest => 1 + utf8DistanceAux fuel (rest.drop (utf8SeqLen b - 1))

/-- utf8 distance: the number of codepoints in a byte run. -/
def utf8Distance (bytes : List Nat) : Nat := utf8DistanceAux bytes.length bytes

/-- Fuel-driven core of utf8 advance: the byte offset after n codepoints. -/
def utf8AdvanceAux : Nat → List Nat → Nat → Nat
  | 0, _, _ => 0
  | _, _, 0 => 0
  | _, [], _ => 0
  | fuel + 1, b :: rest, n + 1 =>
      utf8SeqLen b + utf8AdvanceAux fuel (rest.drop (utf8SeqLen b - 1)) n

/-- utf8 advance: the byte offset of the codepoint at position n. -/
def utf8Advance (bytes : List Nat) (n : Nat) : Nat :=
  utf8AdvanceAux bytes.length bytes n

/-- The UTF-8 bytes of an ASCII string (every scenario text is ASCII,
where each codepoint is one byte). -/
def asciiBytes (s : String) : List Nat := s.toList.map Char.toNat

/-- Segment payload of a stored Insert: its text as the raw byte buffer,
parent anchor, cached piece ids, ordered children and the cached
synthetic undo deletion. -/
structure SegData where
  text : List Nat
  insert_pos : Nat
  parent : Option OpId
  last_piece : Nat
  insert_piece : Nat
  split_child : List OpId
  undo_op : Option OpId
deriving DecidableEq, Repr

/-- StoredDeletion payload: the ids of its left and right tags. -/
structure RangeData where
  left : Nat
  right : Nat
deriving DecidableEq, Repr

/-- The four stored operation kinds reachable from the engine protocol. -/
inductive OpPayload where
  | ins : SegData → OpPayload
  | del : RangeData → OpPayload
  | und : OpId → OpPayload
  | red : OpId → OpPayload
deriving DecidableEq, Repr

/-- StoredOperation base data: the has_undo flag plus the variant payload. -/
structure Stored where
  has_undo : Bool
  payload : OpPayload
deriving DecidableEq, Repr

/-- Piece: a contiguous codepoint run inside one segment.  As in the
source, a piece is a byte pointer into the segment buffer plus a length
in codepoints: data models the byte suffix of the segment buffer starting
at that pointer, and len is the stored codepoint count (the byte extent
of the piece is not stored).  tombStone is the id of the covering range
op, if any. -/
structure Piece where
  pid : Nat
  seg : OpId
  data : List Nat
  len : Nat
  seg_pos : Nat
  tomb : Option OpId
deriving DecidableEq, Repr

/-- Piece.isRemoved: a piece is hidden when its tombstone is set. -/
def Piece.isRemoved (p : Piece) : Bool := p.tomb.isSome

/-- The visible component of the PieceInfo summary of one piece. -/
def Piece.visLen (p : Piece) : Nat := if p.isRemoved then 0 else p.len

/-- The whole engine state: lamport clock, local replica id, the per-replica
operation store, the piece tree (in order), the range-tag tree (in order)
and the id allocators for pieces and tags. -/
structure Engine where
  localId : RID
  lamport : Nat
  replicas : List (RID × List (Option Stored))
  pieces : List Piece
  tags : List RangeTag
  nextPiece : Nat
  nextTag : Nat
deriving DecidableEq, Repr

/-- 2 to the 32nd: the modulus of the uint32 lamport arithmetic. -/
def U32 : Nat := 4294967296

/-- Insert an element at a position of a list (std vector insert). -/
def insertAt {α : Type} (i : Nat) (a : α) (l : List α) : List α :=
  l.take i ++ a :: l.drop i

/-- Turn an Option into an Except with an error message. -/
def ofOpt {α : Type} (o : Option α) (msg : String) : Except String α :=
  match o with
  | Option.none => Except.error msg
  | Option.some a => Except.ok a

/-- The segment vector of one replica (empty when the replica is unknown). -/
def replicaSegs? (e : Engine) (r : RID) : Option (List (Option Stored)) :=
  (e.replicas.find? (fun p => p.fst = r)).map Prod.snd

/-- Store the given segment vector for a replica, interning the replica
when it was not present before (getReplica in the source). -/
def setReplicaSegs (rs : List (RID × List (Option Stored))) (r : RID)
    (segs : List (Option Stored)) : List (RID × List (Option Stored)) :=
  match rs with
  | [] => [(r, segs)]
  | p :: rest =>
      if p.fst = r then (r, segs) :: rest else p :: setReplicaSegs rest r segs

/-- std vector resize: truncate or pad with null slots to exactly n slots. -/
def resizeTo (n : Nat) (l : List (Option Stored)) : List (Option Stored) :=
  (l ++ List.replicate (n - l.length) Option.none).take n

/-- Whether the (replica, stamp) slot of the store already holds an operation. -/
def slotFilled (e : Engine) (r : RID) (stamp : Nat) : Bool :=
  match replicaSegs? e r with
  | Option.none => false
  | Option.some segs =>
      match segs.get? stamp with
      | Option.some (Option.some _) => true
      | _ => false

/-- The segment vector of the target replica after the resize performed by
storeOp: grown (or shrunk) to the advanced clock max(local, stamp)+1
under the uint32 arithmetic. -/
def storeSlots (e : Engine) (r : RID) (stamp : Nat) : List (Option Stored) :=
  resizeTo ((Nat.max e.lamport stamp + 1) % U32) ((replicaSegs? e r).getD [])

/-- storeOp from the source: intern the replica, advance the lamport clock to
max(local, stamp)+1 (uint32 arithmetic), resize the segment vector to the
new clock, require the slot to be empty (the DuplicateStamp assertion) and
write the operation there. -/
def storeOp (e : Engine) (r : RID) (stamp : Nat) (pl : OpPayload) :
    Except String Engine :=
  match (storeSlots e r stamp).get? stamp with
  | Option.none => Except.error "stamp out of range"
  | Option.some (Option.some _) => Except.error "duplicate stamp slot"
  | Option.some Option.none =>
      Except.ok { e with
        lamport := (Nat.max e.lamport stamp + 1) % U32,
        replicas := setReplicaSegs e.replicas r
          ((storeSlots e r stamp).set stamp
            (Option.some { has_undo := false, payload := pl })) }

/-- Look up a stored operation by OperationID. -/
def lookupStored (e : Engine) (id : OpId) : Option Stored :=
  match replicaSegs? e id.replica with
  | Option.none => Option.none
  | Option.some segs =>
      match segs.get? id.stamp with
      | Option.some (Option.some st) => Option.some st
      | _ => Option.none

/-- Overwrite a stored operation in place (field mutation through a pointer
in the source). -/
def setStored (e : Engine) (id : OpId) (st : Stored) : Engine :=
  match replicaSegs? e id.replica with
  | Option.none => e
  | Option.some segs =>
      { e with replicas :=
          setReplicaSegs e.replicas id.replica (segs.set id.stamp (Option.some st)) }

/-- Set the has_undo flag of a stored operation. -/
def setHasUndo (e : Engine) (id : OpId) (b : Bool) : Except String Engine :=
  match lookupStored e id with
  | Option.none => Except.error "has_undo on missing op"
  | Option.some st => Except.ok (setStored e id { st with has_undo := b })

/-- Fetch the segment payload of a stored Insert (static_cast to Segment). -/
def getSegData (e : Engine) (id : OpId) : Except String SegData :=
  match lookupStored e id with
  | Option.some st =>
      match st.payload with
      | OpPayload.ins s => Except.ok s
      | _ => Except.error "not a segment"
  | Option.none => Except.error "missing segment"

/-- Update the segment payload of a stored Insert in place. -/
def updSeg (e : Engine) (id : OpId) (f : SegData → SegData) :
    Except String Engine :=
  match lookupStored e id with
  | Option.some st =>
      match st.payload with
      | OpPayload.ins s =>
          Except.ok (setStored e id { st with payload := OpPayload.ins (f s) })
      | _ => Except.error "not a segment"
  | Option.none => Except.error "missing segment"

/-- Fetch the range payload of a stored Delete (static_cast to StoredDeletion). -/
def getRangeData (e : Engine) (id : OpId) : Except String RangeData :=
  match lookupStored e id with
  | Option.some st =>
      match st.payload with
      | OpPayload.del d => Except.ok d
      | _ => Except.error "not a range op"
  | Option.none => Except.error "missing range op"

/-- Set the left and right tags of a stored Delete. -/
def setRangeData (e : Engine) (id : OpId) (d : RangeData) :
    Except String Engine :=
  match lookupStored e id with
  | Option.some st =>
      match st.payload with
      | OpPayload.del _ =>
          Except.ok (setStored e id { st with payload := OpPayload.del d })
      | _ => Except.error "not a range op"
  | Option.none => Except.error "missing range op"

/-- Total (historical) prefix sum of the first i pieces, the total component
of Iterator.position(). -/
def totalPrefix (ps : List Piece) (i : Nat) : Nat :=
  ((ps.take i).map Piece.len).sum

/-- Visible prefix sum of the first i pieces, the visible component of
Iterator.position(). -/
def visPrefix (ps : List Piece) (i : Nat) : Nat :=
  ((ps.take i).map Piece.visLen).sum

/-- Sequence find over the visible sums: descend to the first piece whose
running visible prefix (including the piece itself) strictly exceeds pos;
acc carries the accumulated summary exactly as in the source. -/
def findVisAux (pos : Nat) : Nat → List Piece → Option Nat
  | _, [] => Option.none
  | acc, p :: rest =>
      if pos < acc + p.visLen then Option.some 0
      else (findVisAux pos (acc + p.visLen) rest).map (· + 1)

/-- PieceTree find by visible position (cmp: a < b.visible). -/
def findVisibleIdx (ps : List Piece) (pos : Nat) : Option Nat :=
  findVisAux pos 0 ps

/-- Sequence find over the total sums. -/
def findHistAux (pos : Nat) : Nat → List Piece → Option Nat
  | _, [] => Option.none
  | acc, p :: rest =>
      if pos < acc + p.len then Option.some 0
      else (findHistAux pos (acc + p.len) rest).map (· + 1)

/-- PieceTree findHistory: find by historical (total) position. -/
def findHistoryIdx (ps : List Piece) (pos : Nat) : Option Nat :=
  findHistAux pos 0 ps

/-- Index of the piece holding a given stable piece id. -/
def idxOfPid (e : Engine) (pid : Nat) : Except String Nat :=
  ofOpt (e.pieces.findIdx? (fun p => p.pid = pid)) "piece pointer dangling"

/-- The piece at a list index. -/
def pieceAt (e : Engine) (i : Nat) : Except String Piece :=
  ofOpt (e.pieces.get? i) "piece index out of range"

/-- First split child of a segment whose insert_pos exceeds pos (the
lower_bound over split_child in PieceTree::find). -/
def firstChildAfter (e : Engine) (children : List OpId) (pos : Nat) :
    Except String (Option OpId) :=
  match children with
  | [] => Except.ok Option.none
  | c :: rest => do
      let cd ← getSegData e c
      if pos < cd.insert_pos then return (Option.some c)
      else firstChildAfter e rest pos

/-- PieceTree::find(StoredAnchor): locate the piece currently holding
(anchor.seg, anchor.pos).  Returns the index of that piece. -/
def ptFind (e : Engine) (aSeg : OpId) (aPos : Nat) : Except String Nat := do
  let sd ← getSegData e aSeg
  let cand ← firstChildAfter e sd.split_child aPos
  let pid ← match cand with
    | Option.some c => do
        let cd ← getSegData e c
        pure cd.insert_piece
    | Option.none => pure sd.last_piece
  let idx ← idxOfPid e pid
  let p ← pieceAt e idx
  if p.seg ≠ aSeg then Except.error "assert piece seg mismatch"
  else if p.seg_pos ≤ aPos then return idx
  else do
    let idx2 ← ofOpt (findHistoryIdx e.pieces (totalPrefix e.pieces idx + aPos - p.seg_pos))
      "findHistory out of range"
    let p2 ← pieceAt e idx2
    if p2.seg ≠ aSeg then Except.error "assert piece seg mismatch after findHistory"
    else return idx2

/-- PieceTree::split(it, pos): the existing cell keeps the right part (its
stable id is preserved, as the source keeps the cell pointer on the right
half): its data pointer advances by the byte offset of pos codepoints and
its codepoint length shrinks by pos.  A fresh piece holding the left part
is inserted before it, keeping the original data pointer with length pos.
Returns the updated state and the index of the left part. -/
def ptSplit (e : Engine) (idx pos : Nat) : Except String (Engine × Nat) := do
  let p ← pieceAt e idx
  if pos < p.len then
    let offset := utf8Advance p.data pos
    let leftP : Piece := { p with pid := e.nextPiece, len := pos }
    let rightP : Piece :=
      { p with data := p.data.drop offset, seg_pos := p.seg_pos + pos,
               len := p.len - pos }
    return ({ e with
      pieces := insertAt idx leftP (e.pieces.set idx rightP),
      nextPiece := e.nextPiece + 1 }, idx)
  else Except.error "assert split pos in range"

/-- The sibling order of split children: (insert_pos, stamp, replica). -/
def siblingLt (e : Engine) (a : OpId) (bPos : Nat) (b : OpId) :
    Except String Bool := do
  let ad ← getSegData e a
  if ad.insert_pos ≠ bPos then return decide (ad.insert_pos < bPos)
  else if a.stamp ≠ b.stamp then return decide (a.stamp < b.stamp)
  else return decide (a.replica < b.replica)

/-- lower_bound position of the new segment among its parent split children. -/
def conflictIdxAux (e : Engine) (bPos : Nat) (b : OpId) :
    List OpId → Nat → Except String Nat
  | [], i => Except.ok i
  | c :: rest, i => do
      if (← siblingLt e c bPos b) then conflictIdxAux e bPos b rest (i + 1)
      else return i

/-- PieceTree::insert(segment): resolve the parent anchor, place the new
piece according to the conflict cases of the source, register the segment
in parent split_child and cache its insert and last pieces. -/
def ptInsert (e : Engine) (segId : OpId) : Except String Engine := do
  let sd ← getSegData e segId
  let parentId ← ofOpt sd.parent "null parent segment"
  let aPos := sd.insert_pos
  let it0 ← ptFind e parentId aPos
  let p0 ← pieceAt e it0
  let pos := aPos - p0.seg_pos
  let pd ← getSegData e parentId
  let ci ← conflictIdxAux e aPos segId pd.split_child 0
  let step ← do
    if pos = 0 ∧ pd.split_child ≠ [] then do
      let prevDiff ←
        if ci = 0 then pure true
        else do
          let c ← ofOpt (pd.split_child.get? (ci - 1)) "conflict index"
          let cd ← getSegData e c
          pure (decide (cd.insert_pos ≠ aPos))
      if prevDiff then do
        let atHere ←
          match pd.split_child.get? ci with
          | Option.none => pure Option.none
          | Option.some c => do
              let cd ← getSegData e c
              if cd.insert_pos = aPos then pure (Option.some cd) else pure Option.none
        match atHere with
        | Option.some cd => do
            let i ← idxOfPid e cd.insert_piece
            pure (e, i)
        | Option.none =>
            if it0 = 0 then Except.error "assert decrement begin iterator"
            else pure (e, it0 - 1)
      else do
        let c ← ofOpt (pd.split_child.get? (ci - 1)) "conflict index"
        let cd ← getSegData e c
        let i ← idxOfPid e cd.last_piece
        pure (e, i)
    else ptSplit e it0 pos
  let e := step.fst
  let leftIdx := step.snd
  let leftP ← pieceAt e leftIdx
  let e ← updSeg e segId (fun s => { s with insert_piece := leftP.pid })
  let e ← updSeg e parentId
    (fun s => { s with split_child := insertAt ci segId s.split_child })
  let newPiece : Piece :=
    { pid := e.nextPiece, seg := segId, data := sd.text,
      len := utf8Distance sd.text, seg_pos := 0, tomb := Option.none }
  let e := { e with pieces := insertAt (leftIdx + 1) newPiece e.pieces,
                    nextPiece := e.nextPiece + 1 }
  updSeg e segId (fun s => { s with last_piece := newPiece.pid })

/-- PieceTree::historyOffset: project a stored anchor onto the historical
(total) axis. -/
def historyOffset (e : Engine) (aSeg : OpId) (aPos : Nat) : Except String Nat := do
  let idx ← ptFind e aSeg aPos
  let p ← pieceAt e idx
  return aPos + totalPrefix e.pieces idx - p.seg_pos

/-- Index of the tag holding a given stable tag id. -/
def tagIdxOfTid (e : Engine) (tid : Nat) : Except String Nat :=
  ofOpt (e.tags.findIdx? (fun t => t.tid = tid)) "tag pointer dangling"

/-- The tag at a list index. -/
def tagAt (e : Engine) (i : Nat) : Except String RangeTag :=
  ofOpt (e.tags.get? i) "tag index out of range"

/-- Mutate the tag at a list index. -/
def updTagAt (e : Engine) (i : Nat) (f : RangeTag → RangeTag) : Engine :=
  match e.tags.get? i with
  | Option.none => e
  | Option.some t => { e with tags := e.tags.set i (f t) }

/-- Set the statuses of the left and right endpoint tags. -/
def setStatuses (e : Engine) (li ri : Nat) (s : TagStatus) : Engine :=
  updTagAt (updTagAt e li (fun t => { t with status := s })) ri
    (fun t => { t with status := s })

/-- Dereference a StatedPtr: the bad sentinel trips the isGood assertion. -/
def derefOld (o : OldPtr) : Except String (Option OpId) :=
  match o with
  | OldPtr.nil => Except.ok Option.none
  | OldPtr.ptr p => Except.ok (Option.some p)
  | OldPtr.bad => Except.error "assert stated pointer good"

/-- Raw pointer comparison of a StatedPtr with a plain pointer (the bad
sentinel never equals a valid pointer). -/
def oldEqOpt (o : OldPtr) (n : Option OpId) : Bool :=
  match o, n with
  | OldPtr.nil, Option.none => true
  | OldPtr.ptr a, Option.some b => a = b
  | _, _ => false

/-- Wrap an optional op back into a StatedPtr value. -/
def ofOptPtr (n : Option OpId) : OldPtr :=
  match n with
  | Option.none => OldPtr.nil
  | Option.some p => OldPtr.ptr p

/-- The short-circuit test tag.old == null or *tag.old < *op (dereferencing
the bad sentinel is an assertion failure). -/
def oldNullOrLt (o : OldPtr) (op : OpId) : Except String Bool :=
  match o with
  | OldPtr.nil => Except.ok true
  | OldPtr.ptr p => Except.ok (opLt p op)
  | OldPtr.bad => Except.error "assert stated pointer good"

/-- The dynamic comparator of the range-tag tree: order an existing tag a
against the new tag b, with the freshly computed historical position of b
(same segment: by offset; different segments: by historical offset; ties:
right before left, then nesting by the op order of cur). -/
def tagLess (e : Engine) (a b : RangeTag) (hpos : Nat) : Except String Bool := do
  let tie : Bool :=
    if a.is_left ≠ b.is_left then b.is_left
    else if a.is_left then opLt b.cur a.cur
    else opLt a.cur b.cur
  if a.anchorSeg = b.anchorSeg then
    if a.anchorPos ≠ b.anchorPos then return decide (a.anchorPos < b.anchorPos)
    else return tie
  else do
    let apos ← historyOffset e a.anchorSeg a.anchorPos
    if apos ≠ hpos then return decide (apos < hpos)
    else return tie

/-- lower_bound position of a new tag in the range-tag tree. -/
def tagInsertIdxAux (e : Engine) (b : RangeTag) (hpos : Nat) :
    List RangeTag → Nat → Except String Nat
  | [], i => Except.ok i
  | t :: rest, i => do
      if (← tagLess e t b hpos) then tagInsertIdxAux e b hpos rest (i + 1)
      else return i

/-- RangeTree::addTag: split the piece tree so the anchor starts a piece,
then insert the tag with the dynamic comparator.  Returns the new state,
the id of the new tag and the stable id of the piece starting at the
anchor. -/
def addTag (e : Engine) (isL : Bool) (aSeg : OpId) (aPos : Nat) (cur : OpId) :
    Except String (Engine × Nat × Nat) := do
  let pIdx ← ptFind e aSeg aPos
  let p ← pieceAt e pIdx
  let pos := aPos - p.seg_pos
  let step ←
    if pos ≠ 0 then do
      let sp ← ptSplit e pIdx pos
      pure (sp.fst, sp.snd + 1)
    else pure (e, pIdx)
  let e := step.fst
  let pIdx := step.snd
  let hpos := totalPrefix e.pieces pIdx
  let newTag : RangeTag :=
    { tid := e.nextTag, is_left := isL, status := TagStatus.Active,
      anchorSeg := aSeg, anchorPos := aPos, cur := cur, old := OldPtr.bad }
  let i ← tagInsertIdxAux e newTag hpos e.tags 0
  let pp ← pieceAt e pIdx
  let e := { e with tags := insertAt i newTag e.tags, nextTag := e.nextTag + 1 }
  return (e, newTag.tid, pp.pid)

/-- RangeTree::apply: add the right tag first, then the left tag.  Returns
(left tag id, left piece id, right tag id, right piece id). -/
def applyRange (e : Engine) (opId : OpId) (bSeg : OpId) (bPos : Nat)
    (eSeg : OpId) (ePos : Nat) : Except String (Engine × Nat × Nat × Nat × Nat) := do
  let r ← addTag e false eSeg ePos opId
  let l ← addTag r.fst true bSeg bPos opId
  return (l.fst, l.snd.fst, l.snd.snd, r.snd.fst, r.snd.snd)

/-- The tombstone updater passed to redoRangeOp by every caller: claim the
piece when the current tombstone is null or older than the op. -/
def updA (op : OpId) (p : Piece) : Piece :=
  match p.tomb with
  | Option.none => { p with tomb := Option.some op }
  | Option.some o => if opLt o op then { p with tomb := Option.some op } else p

/-- The tombstone updater passed to undoRangeOp by undoDel: pieces whose
tombstone is the undone op revert to the currently newest covering op. -/
def undoUpd (target : OpId) (newest : Option OpId) (p : Piece) : Piece :=
  if p.tomb = Option.some target then { p with tomb := newest } else p

/-- Lockstep piece walk: advance from index idx, applying the updater to
every piece until reaching the piece whose (segment, seg_pos) equals the
next tag anchor. -/
def walkAdvance (upd : Piece → Piece) :
    Nat → Engine → Nat → OpId → Nat → Except String (Engine × Nat)
  | 0, _, _, _, _ => Except.error "piece walk fuel exhausted"
  | fuel + 1, e, idx, aSeg, aPos => do
      let p ← pieceAt e idx
      if p.seg = aSeg ∧ p.seg_pos = aPos then return (e, idx)
      else
        walkAdvance upd fuel ({ e with pieces := e.pieces.set idx (upd p) }) (idx + 1) aSeg aPos

/-- newest == null or *newest < *c. -/
def newestNullLt (n : Option OpId) (c : OpId) : Bool :=
  match n with
  | Option.none => true
  | Option.some x => opLt x c

/-- The interior-tag loop of redoRangeOp: walk pieces in lockstep, detect
crossing tags and thread the old pointers of intermediate crossed tags. -/
def redoLoop (opId : OpId) (li ri : Nat) :
    Nat → Engine → Nat → Nat → Bool → Nat → Nat →
    Except String (Engine × Bool × Nat × Nat)
  | 0, _, _, _, _, _, _ => Except.error "tag walk fuel exhausted"
  | fuel + 1, e, it, bp, hasA, firstA, lastA => do
      let t ← tagAt e it
      let adv ← walkAdvance (updA opId) (e.pieces.length + 1) e bp t.anchorSeg t.anchorPos
      let e := adv.fst
      let bp := adv.snd
      if it = ri then return (e, hasA, firstA, lastA)
      else if t.status = TagStatus.Undone ∨ t.status = TagStatus.UnUsed then
        redoLoop opId li ri fuel e (it + 1) bp hasA firstA lastA
      else do
        let c1 ← oldNullOrLt t.old opId
        if c1 ∧ opLt opId t.cur then do
          let firstA := if firstA = li then it else firstA
          let e :=
            if lastA ≠ ri ∧ lastA ≠ firstA then
              updTagAt e lastA (fun s => { s with old := OldPtr.ptr opId })
            else e
          redoLoop opId li ri fuel e (it + 1) bp true firstA it
        else redoLoop opId li ri fuel e (it + 1) bp hasA firstA lastA

/-- Leftward scan recomputing the old pointer of the left endpoint tag,
from the first crossed tag back to the left endpoint. -/
def scanLeft (e : Engine) (opId : OpId) (li : Nat) :
    Nat → Nat → Option OpId → Except String (Option OpId)
  | 0, _, _ => Except.error "scan fuel exhausted"
  | fuel + 1, it, newest => do
      if it = li then return newest
      else do
        let t ← tagAt e it
        if t.status = TagStatus.Undone ∨ t.status = TagStatus.UnUsed then
          scanLeft e opId li fuel (it - 1) newest
        else if t.is_left ∧ Option.some t.cur = newest then do
          let n ← derefOld t.old
          scanLeft e opId li fuel (it - 1) n
        else if (!t.is_left) ∧ newestNullLt newest t.cur ∧ opLt t.cur opId then
          if oldEqOpt t.old newest then scanLeft e opId li fuel (it - 1) (Option.some t.cur)
          else Except.error "assert tag old equals newest"
        else scanLeft e opId li fuel (it - 1) newest

/-- Rightward scan recomputing the old pointer of the right endpoint tag,
from the last crossed tag forward to the right endpoint. -/
def scanRight (e : Engine) (opId : OpId) (ri : Nat) :
    Nat → Nat → Option OpId → Except String (Option OpId)
  | 0, _, _ => Except.error "scan fuel exhausted"
  | fuel + 1, it, newest => do
      if it = ri then return newest
      else do
        let t ← tagAt e it
        if t.status = TagStatus.Undone ∨ t.status = TagStatus.UnUsed then
          scanRight e opId ri fuel (it + 1) newest
        else if (!t.is_left) ∧ Option.some t.cur = newest then do
          let n ← derefOld t.old
          scanRight e opId ri fuel (it + 1) n
        else if t.is_left ∧ opLt t.cur opId ∧ newestNullLt newest t.cur then
          if oldEqOpt t.old newest then scanRight e opId ri fuel (it + 1) (Option.some t.cur)
          else Except.error "assert tag old equals newest"
        else scanRight e opId ri fuel (it + 1) newest

/-- redoRangeOp: re-apply a range operation.  Clears has_undo, walks the
interior tags and pieces between the endpoints, updates tombstones, then
fixes the endpoint statuses and old pointers as in the source. -/
def redoRangeOp (e0 : Engine) (opId : OpId) : Except String Engine := do
  let e ← setHasUndo e0 opId false
  let rd ← getRangeData e opId
  let li ← tagIdxOfTid e rd.left
  let ri ← tagIdxOfTid e rd.right
  let lT ← tagAt e li
  let bp ← ptFind e lT.anchorSeg lT.anchorPos
  let res ← redoLoop opId li ri (e.tags.length + e.pieces.length + 2) e (li + 1) bp false li ri
  let e := res.fst
  let hasA := res.snd.fst
  let firstA := res.snd.snd.fst
  let lastA := res.snd.snd.snd
  if ¬hasA then do
    let lT ← tagAt e li
    let rT ← tagAt e ri
    if lT.old ≠ OldPtr.bad ∧ rT.old ≠ OldPtr.bad then
      return setStatuses e li ri TagStatus.Active
    else return setStatuses e li ri TagStatus.UnUsed
  else do
    let e := setStatuses e li ri TagStatus.Active
    let lT ← tagAt e li
    let e ←
      if lT.old = OldPtr.bad then do
        let fT ← tagAt e firstA
        let n0 ← derefOld fT.old
        let n ← scanLeft e opId li (e.tags.length + 1) (firstA - 1) n0
        pure (updTagAt e li (fun s => { s with old := ofOptPtr n }))
      else pure e
    let rT ← tagAt e ri
    let e ←
      if rT.old = OldPtr.bad then do
        let lA ← tagAt e lastA
        let n0 ← derefOld lA.old
        let n ← scanRight e opId ri (e.tags.length + 1) (lastA + 1) n0
        pure (updTagAt e ri (fun s => { s with old := ofOptPtr n }))
      else pure e
    let e := updTagAt e firstA (fun s => { s with old := OldPtr.ptr opId })
    let e := updTagAt e lastA (fun s => { s with old := OldPtr.ptr opId })
    let lT ← tagAt e li
    let rT ← tagAt e ri
    if (lT.old ≠ OldPtr.bad) = (rT.old ≠ OldPtr.bad) then return e
    else Except.error "assert endpoint old states match"

/-- The interior-tag loop of undoRangeOp: walk pieces with the reverting
updater while tracking the currently newest active op, collecting fully
covered unused ops for revival. -/
def undoLoop (opId : OpId) (ri : Nat) :
    Nat → Engine → Nat → Nat → Option OpId → List OpId → List OpId →
    Except String (Engine × List OpId)
  | 0, _, _, _, _, _, _ => Except.error "tag walk fuel exhausted"
  | fuel + 1, e, it, bp, newest, unused, covered => do
      let t ← tagAt e it
      let adv ← walkAdvance (undoUpd opId newest) (e.pieces.length + 1) e bp
        t.anchorSeg t.anchorPos
      let e := adv.fst
      let bp := adv.snd
      if it = ri then return (e, covered)
      else if t.status = TagStatus.Undone then
        undoLoop opId ri fuel e (it + 1) bp newest unused covered
      else if t.status = TagStatus.UnUsed ∧ opLt opId t.cur then
        undoLoop opId ri fuel e (it + 1) bp newest unused covered
      else do
        let skipNewerOld ←
          if t.status = TagStatus.Active then
            match t.old with
            | OldPtr.nil => pure false
            | OldPtr.ptr o => pure (opLt opId o)
            | OldPtr.bad => Except.error "assert stated pointer good"
          else pure false
        if skipNewerOld then undoLoop opId ri fuel e (it + 1) bp newest unused covered
        else if oldEqOpt t.old (Option.some opId) then do
          let e := updTagAt e it (fun s => { s with old := ofOptPtr newest })
          undoLoop opId ri fuel e (it + 1) bp newest unused covered
        else if t.is_left then
          if t.status = TagStatus.UnUsed then do
            let unused := unused ++ [t.cur]
            let e := updTagAt e it (fun s =>
              { s with old := if newestNullLt newest t.cur then ofOptPtr newest else OldPtr.bad })
            undoLoop opId ri fuel e (it + 1) bp newest unused covered
          else if newestNullLt newest t.cur then
            if oldEqOpt t.old newest then
              undoLoop opId ri fuel e (it + 1) bp (Option.some t.cur) unused covered
            else Except.error "assert tag old equals newest"
          else undoLoop opId ri fuel e (it + 1) bp newest unused covered
        else
          if t.status = TagStatus.UnUsed then
            if unused.contains t.cur then do
              let covered := covered ++ [t.cur]
              let e := updTagAt e it (fun s =>
                { s with old := if newestNullLt newest t.cur then ofOptPtr newest else OldPtr.bad })
              undoLoop opId ri fuel e (it + 1) bp newest unused covered
            else undoLoop opId ri fuel e (it + 1) bp newest unused covered
          else if Option.some t.cur = newest then do
            let n ← derefOld t.old
            undoLoop opId ri fuel e (it + 1) bp n unused covered
          else undoLoop opId ri fuel e (it + 1) bp newest unused covered

/-- Insert into a list sorted newest-first by the stored-op order. -/
def insertDesc (a : OpId) : List OpId → List OpId
  | [] => [a]
  | b :: rest => if opLt b a then a :: b :: rest else b :: insertDesc a rest

/-- Sort a list of ops newest-first (the std sort with reversed op order). -/
def sortDesc : List OpId → List OpId
  | [] => []
  | a :: rest => insertDesc a (sortDesc rest)

/-- undoRangeOp: withdraw a range operation.  Sets has_undo, marks the
endpoints Undone, reverts tombstones along the walk and returns the fully
covered unused ops to re-apply, sorted newest first. -/
def undoRangeOp (e0 : Engine) (opId : OpId) :
    Except String (Engine × List OpId) := do
  let e ← setHasUndo e0 opId true
  let rd ← getRangeData e opId
  let li ← tagIdxOfTid e rd.left
  let ri ← tagIdxOfTid e rd.right
  let lT ← tagAt e li
  let rT ← tagAt e ri
  if lT.status = TagStatus.UnUsed ∨ rT.status = TagStatus.UnUsed then
    return (setStatuses e li ri TagStatus.Undone, [])
  else do
    let e := setStatuses e li ri TagStatus.Undone
    let bp ← ptFind e lT.anchorSeg lT.anchorPos
    let n0 ← derefOld lT.old
    let res ← undoLoop opId ri (e.tags.length + e.pieces.length + 2) e (li + 1) bp n0 [] []
    return (res.fst, sortDesc res.snd)

/-- A wire anchor: (replica, stamp, position inside that insertion). -/
structure WAnchor where
  replica : RID
  stamp : Nat
  pos : Nat
deriving DecidableEq, Repr

/-- PieceCRDT::toStored: resolve a wire anchor to a stored segment.  Null
is returned for an unknown replica, an out-of-range or unfilled stamp
slot, or a slot not holding an Insert. -/
def toStored (e : Engine) (a : WAnchor) : Option (OpId × Nat) :=
  match replicaSegs? e a.replica with
  | Option.none => Option.none
  | Option.some segs =>
      match segs.get? a.stamp with
      | Option.some (Option.some st) =>
          match st.payload with
          | OpPayload.ins _ => Option.some (⟨a.replica, a.stamp⟩, a.pos)
          | _ => Option.none
      | _ => Option.none

/-- PieceCRDT::insert: store the new segment first, then resolve the parent
anchor; a missing parent drops the rest silently (but the op stays stored). -/
def engineInsert (e : Engine) (replica : RID) (stamp : Nat) (a : WAnchor)
    (text : List Nat) : Except String Engine := do
  let myId : OpId := ⟨replica, stamp⟩
  let e ← storeOp e replica stamp (OpPayload.ins
    { text := text, insert_pos := 0, parent := Option.none, last_piece := 0,
      insert_piece := 0, split_child := [], undo_op := Option.none })
  match toStored e a with
  | Option.none => return e
  | Option.some anc => do
      let e ← updSeg e myId (fun s =>
        { s with parent := Option.some anc.fst, insert_pos := anc.snd })
      ptInsert e myId

/-- The neighbor inspection of PieceCRDT::del on one side: derive the old
pointer of a fresh endpoint tag from the tombstone of the adjacent piece. -/
def delNeighbor (e : Engine) (dId : OpId) (tagTid : Nat) (nb : Piece)
    (anchor : OpId × Nat) (useRight : Bool) : Except String Engine := do
  match nb.tomb with
  | Option.none => do
      let i ← tagIdxOfTid e tagTid
      return updTagAt e i (fun s => { s with old := OldPtr.nil })
  | Option.some tOp => do
      let trd ← getRangeData e tOp
      let bTag ← tagAt e (← tagIdxOfTid e (if useRight then trd.right else trd.left))
      if bTag.old = OldPtr.bad then Except.error "assert boundary old good"
      else if (bTag.anchorSeg, bTag.anchorPos) ≠ anchor then
        if opLt tOp dId then do
          let i ← tagIdxOfTid e tagTid
          return updTagAt e i (fun s => { s with old := OldPtr.ptr tOp })
        else return e
      else do
        let bOld ← derefOld bTag.old
        if newestNullLt bOld dId then do
          if bTag.status ≠ TagStatus.Active then
            Except.error "assert tombStone should be Active"
          else do
            let i ← tagIdxOfTid e tagTid
            return updTagAt e i (fun s => { s with old := bTag.old })
        else return e

/-- PieceCRDT::del: store the deletion, add its two tags, derive the
endpoint old pointers from the neighbouring pieces, then run redoRangeOp
to set tombstones. -/
def engineDel (e : Engine) (replica : RID) (stamp : Nat) (b en : WAnchor) :
    Except String Engine := do
  let dId : OpId := ⟨replica, stamp⟩
  let e ← storeOp e replica stamp (OpPayload.del { left := 0, right := 0 })
  let bS ← ofOpt (toStored e b) "null anchor segment"
  let eS ← ofOpt (toStored e en) "null anchor segment"
  let ap ← applyRange e dId bS.fst bS.snd eS.fst eS.snd
  let e := ap.fst
  let ltid := ap.snd.fst
  let lpid := ap.snd.snd.fst
  let rtid := ap.snd.snd.snd.fst
  let rpid := ap.snd.snd.snd.snd
  let lIdx ← idxOfPid e lpid
  let e ←
    if lIdx ≠ 0 then do
      let pb ← pieceAt e (lIdx - 1)
      delNeighbor e dId ltid pb bS true
    else pure e
  let rIdx ← idxOfPid e rpid
  let pa ← pieceAt e rIdx
  let e ← delNeighbor e dId rtid pa eS false
  let e ← setRangeData e dId { left := ltid, right := rtid }
  redoRangeOp e dId

/-- Length of a segment: last_piece.seg_pos + last_piece.len. -/
def segLen (e : Engine) (segId : OpId) : Except String Nat := do
  let sd ← getSegData e segId
  let i ← idxOfPid e sd.last_piece
  let p ← pieceAt e i
  return p.seg_pos + p.len

/-- redoDel: re-apply a stored deletion and refresh summaries (the summary
refresh is implicit in this embedding, but the anchor lookups it performs
are kept because they can fail). -/
def redoDel (e : Engine) (target : OpId) : Except String Engine := do
  let e ← redoRangeOp e target
  let rd ← getRangeData e target
  let lT ← tagAt e (← tagIdxOfTid e rd.left)
  let rT ← tagAt e (← tagIdxOfTid e rd.right)
  let _ ← ptFind e lT.anchorSeg lT.anchorPos
  let _ ← ptFind e rT.anchorSeg rT.anchorPos
  setHasUndo e target false

/-- undoDel: withdraw a stored deletion, then re-apply every revived
covered op, newest first. -/
def undoDel (e : Engine) (target : OpId) : Except String Engine := do
  let res ← undoRangeOp e target
  let e ← res.snd.foldlM (fun acc c => redoRangeOp acc c) res.fst
  let rd ← getRangeData e target
  let lT ← tagAt e (← tagIdxOfTid e rd.left)
  let rT ← tagAt e (← tagIdxOfTid e rd.right)
  let _ ← ptFind e lT.anchorSeg lT.anchorPos
  let _ ← ptFind e rT.anchorSeg rT.anchorPos
  setHasUndo e target true

/-- undoInsertion: on the first undo, synthesize a StoredDeletion covering
the segment (stored at the target replica and stamp, exactly as the
source does), apply its tags and redoRangeOp it; afterwards toggle the
cached deletion. -/
def undoInsertion (e : Engine) (target : OpId) : Except String Engine := do
  let sd ← getSegData e target
  match sd.undo_op with
  | Option.none => do
      let e ← storeOp e target.replica target.stamp (OpPayload.del { left := 0, right := 0 })
      let len ← segLen e target
      let ap ← applyRange e target target 0 target (len - 1)
      let e := ap.fst
      let ltid := ap.snd.fst
      let rtid := ap.snd.snd.snd.fst
      let e ← setRangeData e target { left := ltid, right := rtid }
      let e ← updSeg e target (fun s => { s with undo_op := Option.some target })
      let e ← redoRangeOp e target
      setHasUndo e target true
  | Option.some u => do
      let rd ← getRangeData e u
      let lT ← tagAt e (← tagIdxOfTid e rd.left)
      let rT ← tagAt e (← tagIdxOfTid e rd.right)
      let _ ← ptFind e lT.anchorSeg lT.anchorPos
      let _ ← ptFind e rT.anchorSeg rT.anchorPos
      let e ← redoRangeOp e u
      setHasUndo e target true

/-- redoInsertion: as in the source, re-applies the cached deletion via
redoDel when one exists, then clears has_undo on the target. -/
def redoInsertion (e : Engine) (target : OpId) : Except String Engine := do
  let sd ← getSegData e target
  let e ←
    match sd.undo_op with
    | Option.some u => redoDel e u
    | Option.none => pure e
  setHasUndo e target false

/-- Dispatch of undoOp: Insert and Delete may be undone, Undo and Redo
records may not reach here. -/
def undoOp (e : Engine) (target : OpId) : Except String Engine := do
  match lookupStored e target with
  | Option.none => Except.error "missing undo target"
  | Option.some st =>
      match st.payload with
      | OpPayload.ins _ => undoInsertion e target
      | OpPayload.del _ => undoDel e target
      | _ => Except.error "assert cannot undo an undo or redo directly"

/-- Dispatch of redoOp. -/
def redoOp (e : Engine) (target : OpId) : Except String Engine := do
  match lookupStored e target with
  | Option.none => Except.error "missing redo target"
  | Option.some st =>
      match st.payload with
      | OpPayload.ins _ => redoInsertion e target
      | OpPayload.del _ => redoDel e target
      | _ => Except.error "assert cannot redo an undo or redo directly"

/-- PieceCRDT::undo and redo, combined because each may forward once to the
other when the target is itself an Undo or Redo record.  A missing target
replica or an out-of-range stamp drops the request; a null slot is a null
dereference in the source. -/
def undoRedoGo :
    Nat → Bool → Engine → RID → Nat → RID → Nat → Except String Engine
  | 0, _, _, _, _, _, _ => Except.error "undo redo recursion fuel exhausted"
  | fuel + 1, isUndo, e, replica, stamp, tRep, tStamp => do
      match replicaSegs? e tRep with
      | Option.none => return e
      | Option.some segs =>
          if segs.length ≤ tStamp then return e
          else
            match segs.get? tStamp with
            | Option.none => Except.error "target slot out of range"
            | Option.some Option.none => Except.error "null target dereference"
            | Option.some (Option.some st) =>
                let tId : OpId := ⟨tRep, tStamp⟩
                if isUndo then
                  if st.has_undo then return e
                  else
                    match st.payload with
                    | OpPayload.und inner => do
                        let e ← setHasUndo e tId true
                        undoRedoGo fuel false e replica stamp inner.replica inner.stamp
                    | OpPayload.red inner => do
                        let e ← setHasUndo e tId true
                        let e ← storeOp e replica stamp (OpPayload.und inner)
                        undoOp e inner
                    | _ => do
                        let e ← storeOp e replica stamp (OpPayload.und tId)
                        undoOp e tId
                else
                  if ¬st.has_undo then return e
                  else
                    match st.payload with
                    | OpPayload.und inner => do
                        let e ← setHasUndo e tId false
                        undoRedoGo fuel true e replica stamp inner.replica inner.stamp
                    | OpPayload.red inner => do
                        let e ← setHasUndo e tId false
                        let e ← storeOp e replica stamp (OpPayload.red inner)
                        redoOp e inner
                    | _ => do
                        let e ← storeOp e replica stamp (OpPayload.red tId)
                        redoOp e tId

/-- PieceCRDT::undo. -/
def engineUndo (e : Engine) (replica : RID) (stamp : Nat) (tRep : RID)
    (tStamp : Nat) : Except String Engine :=
  undoRedoGo 4 true e replica stamp tRep tStamp

/-- PieceCRDT::redo. -/
def engineRedo (e : Engine) (replica : RID) (stamp : Nat) (tRep : RID)
    (tStamp : Nat) : Except String Engine :=
  undoRedoGo 4 false e replica stamp tRep tStamp

/-- A fresh engine: the constructor stores the sentinel EOF segment at
(local, 0) and seeds the piece tree with its single piece. -/
def mkEngine (rid : RID) : Except String Engine := do
  let e0 : Engine :=
    { localId := rid, lamport := 0, replicas := [], pieces := [], tags := [],
      nextPiece := 0, nextTag := 0 }
  let eofId : OpId := ⟨rid, 0⟩
  let e ← storeOp e0 rid 0 (OpPayload.ins
    { text := asciiBytes "EOF", insert_pos := 0, parent := Option.none,
      last_piece := 0, insert_piece := 0, split_child := [],
      undo_op := Option.none })
  let eofPiece : Piece :=
    { pid := 0, seg := eofId, data := asciiBytes "EOF",
      len := utf8Distance (asciiBytes "EOF"), seg_pos := 0,
      tomb := Option.none }
  let e := { e with pieces := [eofPiece], nextPiece := 1 }
  updSeg e eofId (fun s => { s with last_piece := 0 })

/-- The loop body of PieceCRDT::toString: iterate from begin to the piece
before end, skipping removed pieces; each visible piece contributes
res.append(it->data, it->len), i.e. the first len BYTES from its data
pointer, although len counts codepoints. -/
def visLoop : List Piece → List Nat
  | [] => []
  | [_] => []
  | p :: q :: rest =>
      (if p.isRemoved then [] else p.data.take p.len) ++ visLoop (q :: rest)

/-- PieceCRDT::toString (as the byte sequence it builds). -/
def engineToString (e : Engine) : List Nat := visLoop e.pieces

/-- PieceCRDT::size: the visible prefix sum at the last piece, i.e. the
position of the decremented end iterator. -/
def engineSize (e : Engine) : Nat :=
  (e.pieces.dropLast.map Piece.visLen).sum

/-- A wire operation: the four operation records of the public protocol. -/
inductive WireOp where
  | insertion : RID → Nat → WAnchor → List Nat → WireOp
  | deletion : RID → Nat → WAnchor → WAnchor → WireOp
  | undoing : RID → Nat → RID → Nat → WireOp
  | redoing : RID → Nat → RID → Nat → WireOp
deriving DecidableEq, Repr

/-- Apply one wire operation to the engine. -/
def applyOp (e : Engine) : WireOp → Except String Engine
  | WireOp.insertion r s a txt => engineInsert e r s a txt
  | WireOp.deletion r s b en => engineDel e r s b en
  | WireOp.undoing r s tr ts => engineUndo e r s tr ts
  | WireOp.redoing r s tr ts => engineRedo e r s tr ts

/-- Apply a list of wire operations in order to a fresh engine. -/
def applyOps (rid : RID) (ops : List WireOp) : Except String Engine := do
  let e ← mkEngine rid
  ops.foldlM applyOp e

/-- The error message of a failed computation, if any. -/
def errOf {α : Type} : Except String α → Option String
  | Except.error s => Option.some s
  | Except.ok _ => Option.none

/-- Look up a piece by its stable id. -/
def pieceByPid (e : Engine) (pid : Nat) : Option Piece :=
  e.pieces.find? (fun p => p.pid = pid)

/-- Whether the operation is a stored deletion that is currently applied
(not undone). -/
def isActiveDeletion (e : Engine) (d : OpId) : Bool :=
  match lookupStored e d with
  | Option.some st =>
      match st.payload with
      | OpPayload.del _ => !st.has_undo
      | _ => false
  | Option.none => false

/-- Whether the [left, right) interval of a stored range op covers the whole
of a (non-empty) piece, measured on the historical axis exactly as the
walk of redoRangeOp and the repository validator measure it. -/
def coversPieceE (e : Engine) (d : OpId) (p : Piece) : Except String Bool := do
  let rd ← getRangeData e d
  let lT ← tagAt e (← tagIdxOfTid e rd.left)
  let rT ← tagAt e (← tagIdxOfTid e rd.right)
  let lo ← historyOffset e lT.anchorSeg lT.anchorPos
  let hi ← historyOffset e rT.anchorSeg rT.anchorPos
  let i ← idxOfPid e p.pid
  let s := totalPrefix e.pieces i
  return decide (lo ≤ s) && decide (s + p.len ≤ hi) && decide (0 < p.len)

/-- Boolean form of coversPieceE (false when any lookup fails). -/
def coversPiece (e : Engine) (d : OpId) (p : Piece) : Bool :=
  (coversPieceE e d p).toOption.getD false

/-- The bytes belonging to a piece: the byte run of its len codepoints,
starting at its data pointer. -/
def pieceBytes (p : Piece) : List Nat :=
  p.data.take (utf8Advance p.data p.len)

/-- The visible document as the specification words it: the concatenation,
in piece-tree order, of the bytes of every piece whose tombstone is null,
the last (sentinel) piece excluded. -/
def specVisibleBytes (ps : List Piece) : List Nat :=
  ((ps.dropLast.filter (fun p => p.tomb.isNone)).map pieceBytes).flatten

/-- Fallback engine value for total extractions. -/
def emptyEngine : Engine :=
  { localId := 0, lamport := 0, replicas := [], pieces := [], tags := [],
    nextPiece := 0, nextTag := 0 }

/-- A freshly constructed engine for replica 7 (witness state). -/
def engineW : Engine := (mkEngine 7).toOption.getD emptyEngine

/-- The state of engineW after storing one further operation at stamp 5. -/
def engineW9 : Engine :=
  (storeOp engineW 7 5 (OpPayload.und ⟨0, 0⟩)).toOption.getD emptyEngine

/-- Scenario: insert abcd into the fresh document. -/
def opI1 : WireOp := WireOp.insertion 7 1 ⟨7, 0, 0⟩ (asciiBytes "abcd")

/-- Scenario: delete the historical range [1,3) of the abcd insertion. -/
def opD2 : WireOp := WireOp.deletion 7 2 ⟨7, 1, 1⟩ ⟨7, 1, 3⟩

/-- Scenario: insert X at position 2 inside the abcd insertion, a position
strictly inside the interval of opD2. -/
def opI3 : WireOp := WireOp.insertion 7 3 ⟨7, 1, 2⟩ (asciiBytes "X")

/-- Scenario: undo the deletion opD2. -/
def opU4 : WireOp := WireOp.undoing 7 4 7 2

/-- Scenario: redo the deletion opD2. -/
def opR5 : WireOp := WireOp.redoing 7 5 7 2

/-- Scenario: insert ab into the fresh document. -/
def opI1ab : WireOp := WireOp.insertion 7 1 ⟨7, 0, 0⟩ (asciiBytes "ab")

/-- Scenario: undo the insertion opI1ab. -/
def opU2i : WireOp := WireOp.undoing 7 2 7 1

/-- Scenario: an insert whose parent anchor names a replica never observed. -/
def opIBad : WireOp := WireOp.insertion 7 1 ⟨9, 5, 0⟩ (asciiBytes "zz")

/-- Scenario: the causal prerequisite of opIBad arriving later. -/
def opIQ : WireOp := WireOp.insertion 9 5 ⟨7, 0, 0⟩ (asciiBytes "qq")

/-- Scenario: insert one 2-byte codepoint (0xC3 0xA9, the UTF-8 bytes of
the letter e-acute) into the fresh document. -/
def opIe : WireOp := WireOp.insertion 7 1 ⟨7, 0, 0⟩ [195, 169]

/-- C6.  Document export truncates multibyte pieces: toString appends
it->len bytes of each visible piece although len is that piece's
codepoint count (set from utf8 distance and maintained in codepoints by
split), so after inserting the single 2-byte codepoint 0xC3 0xA9 the
exported document is the lone byte 0xC3, not the concatenation of the
visible piece bytes the claim prescribes, and size() = 1 counts a
codepoint whose bytes the export does not contain. -/
theorem to_string_truncates_multibyte :
    (applyOps 7 [opIe]).toOption.map (fun e =>
      (engineToString e, specVisibleBytes e.pieces, engineSize e)) =
      Option.some ([195], [195, 169], 1) ∧
    ([195] : List Nat) ≠ [195, 169] := by decide

theorem findVisAux_spec : ∀ (ps : List Piece) (pos acc : Nat),
    acc ≤ pos → pos < acc + (ps.map Piece.visLen).sum →
    ∃ i p, findVisAux pos acc ps = Option.some i ∧
      ps.get? i = Option.some p ∧ p.tomb = Option.none
  | [], pos, acc, hle, hlt => by simp at hlt; omega
  | p :: rest, pos, acc, hle, hlt => by
      by_cases hc : pos < acc + p.visLen
      · refine ⟨0, p, by simp [findVisAux, hc], rfl, ?_⟩
        cases hp : p.tomb with
        | none => rfl
        | some o =>
            exfalso
            have hz : p.visLen = 0 := by simp [Piece.visLen, Piece.isRemoved, hp]
            omega
      · have hle2 : acc + p.visLen ≤ pos := Nat.le_of_not_lt hc
        have hlt2 : pos < (acc + p.visLen) + (rest.map Piece.visLen).sum := by
          simp only [List.map_cons, List.sum_cons] at hlt
          omega
        obtain ⟨i, q, h1, h2, h3⟩ := findVisAux_spec rest pos (acc + p.visLen) hle2 hlt2
        exact ⟨i + 1, q, by simp [findVisAux, hc, h1], by simpa using h2, h3⟩

/-- C10.  Visible lookup never hits a tombstone: for every position
strictly below the total visible count, the find-by-visible descent
returns an existing piece (so the end-iterator assertion holds) whose
tombstone is null, because a tombstoned piece contributes zero to the
visible sum and can never be the first piece at which the strict
comparison succeeds. -/
theorem find_visible_skips_tombstones (ps : List Piece) (pos : Nat)
    (h : pos < (ps.map Piece.visLen).sum) :
    ∃ i p, findVisibleIdx ps pos = Option.some i ∧
      ps.get? i = Option.some p ∧ p.tomb = Option.none := by
  have := findVisAux_spec ps pos 0 (Nat.zero_le pos) (by simpa using h)
  simpa [findVisibleIdx] using this

/-- A tombstoned piece followed by a visible one (witness data for C10). -/
def pieceRemovedW : Piece :=
  { pid := 50, seg := ⟨7, 1⟩, data := asciiBytes "xy", len := 2, seg_pos := 0,
    tomb := Option.some ⟨7, 2⟩ }

/-- The visible piece of the C10 witness. -/
def pieceVisibleW : Piece :=
  { pid := 51, seg := ⟨7, 1⟩, data := asciiBytes "z", len := 1, seg_pos := 2,
    tomb := Option.none }

/-- Witness for C10: position 0 skips the leading tombstoned piece. -/
theorem find_visible_skips_tombstones_witness :
    0 < ([pieceRemovedW, pieceVisibleW].map Piece.visLen).sum ∧
    ∃ i p, findVisibleIdx [pieceRemovedW, pieceVisibleW] 0 = Option.some i ∧
      [pieceRemovedW, pieceVisibleW].get? i = Option.some p ∧
      p.tomb = Option.none :=
  ⟨by decide, find_visible_skips_tombstones [pieceRemovedW, pieceVisibleW] 0 (by decide)⟩

theorem resizeTo_length (n : Nat) (l : List (Option Stored)) :
    (resizeTo n l).length = n := by
  simp [resizeTo]
  omega

/-- C9.  Lamport monotonicity: whenever storeOp succeeds in storing an
operation with stamp s, the clock afterwards equals
max(previous clock, s)+1 under the uint32 arithmetic, is strictly greater
than s, and is strictly greater than the previous clock (so the clock
stays above every ingested stamp).  A wrapped clock can never complete a
store: the slot index check fails first. -/
theorem storeOp_lamport_spec (e : Engine) (r : RID) (s : Nat) (pl : OpPayload)
    (e2 : Engine) (hl : e.lamport < U32) (hs : s < U32)
    (hok : storeOp e r s pl = Except.ok e2) :
    e2.lamport = (Nat.max e.lamport s + 1) % U32 ∧ s < e2.lamport ∧
    e.lamport < e2.lamport := by
  simp only [storeOp] at hok
  split at hok
  · exact absurd hok (by simp)
  · exact absurd hok (by simp)
  · rename_i v heq
    have hlt : s < (storeSlots e r s).length := by
      rcases List.get?_eq_some.mp heq with ⟨hw, _⟩
      exact hw
    simp only [storeSlots, resizeTo_length] at hlt
    have hmax : Nat.max e.lamport s < U32 := Nat.max_lt.mpr ⟨hl, hs⟩
    have hmod : (Nat.max e.lamport s + 1) % U32 = Nat.max e.lamport s + 1 := by
      rcases Nat.lt_or_ge (Nat.max e.lamport s + 1) U32 with hcase | hcase
      · exact Nat.mod_eq_of_lt hcase
      · exfalso
        have hub : Nat.max e.lamport s + 1 ≤ U32 := Nat.succ_le_of_lt hmax
        have heqc : Nat.max e.lamport s + 1 = U32 := le_antisymm hub hcase
        rw [heqc, Nat.mod_self] at hlt
        exact absurd hlt (Nat.not_lt_zero s)
    have he2 : e2.lamport = (Nat.max e.lamport s + 1) % U32 := by
      cases hok
      rfl
    rw [he2, hmod]
    exact ⟨rfl, Nat.lt_succ_of_le (Nat.le_max_right _ _),
      Nat.lt_succ_of_le (Nat.le_max_left _ _)⟩

/-- Witness for C9: storing stamp 5 on a fresh engine advances the clock
to 7... the right-hand sides below evaluate on the concrete state. -/
theorem storeOp_lamport_spec_witness :
    engineW.lamport < U32 ∧ (5 : Nat) < U32 ∧
    storeOp engineW 7 5 (OpPayload.und ⟨0, 0⟩) = Except.ok engineW9 ∧
    (engineW9.lamport = (Nat.max engineW.lamport 5 + 1) % U32 ∧
     5 < engineW9.lamport ∧ engineW.lamport < engineW9.lamport) :=
  ⟨by decide, by decide, rfl,
   storeOp_lamport_spec engineW 7 5 (OpPayload.und ⟨0, 0⟩) engineW9
     (by decide) (by decide) rfl⟩

theorem get?_take_lt {α : Type} :
    ∀ (n i : Nat) (l : List α), i < n → (l.take n).get? i = l.get? i
  | _, _, [], _ => by simp
  | n + 1, 0, a :: as, _ => rfl
  | n + 1, i + 1, a :: as, h =>
      get?_take_lt n i as (Nat.lt_of_succ_lt_succ h)

theorem get?_append_lt {α : Type} :
    ∀ (i : Nat) (l r : List α), i < l.length → (l ++ r).get? i = l.get? i
  | _, [], _, h => absurd h (Nat.not_lt_zero _)
  | 0, _ :: _, _, _ => rfl
  | i + 1, _ :: as, r, h =>
      get?_append_lt i as r (Nat.lt_of_succ_lt_succ h)

theorem get?_some_lt {α : Type} :
    ∀ (i : Nat) (l : List α) (v : α), l.get? i = Option.some v → i < l.length
  | _, [], _, h => by simp at h
  | 0, a :: as, _, _ => Nat.succ_pos _
  | i + 1, a :: as, v, h =>
      Nat.succ_lt_succ (get?_some_lt i as v h)

/-- A filled slot below the new clock survives the resize unchanged. -/
theorem resizeTo_get?_eq (n s : Nat) (l : List (Option Stored)) (hs : s < n)
    (hl : s < l.length) : (resizeTo n l).get? s = l.get? s := by
  unfold resizeTo
  rw [get?_take_lt n s _ hs, get?_append_lt s l _ hl]

/-- storeOp trips the DuplicateStamp assertion whenever the slot of the
given OperationID is already occupied (and neither clock overflows). -/
theorem storeOp_duplicate (e : Engine) (r : RID) (s : Nat) (pl : OpPayload)
    (hl : e.lamport + 1 < U32) (hs : s + 1 < U32)
    (hf : slotFilled e r s = true) :
    storeOp e r s pl = Except.error "duplicate stamp slot" := by
  unfold slotFilled at hf
  split at hf
  · exact absurd hf (by simp)
  · rename_i segs hsegs
    split at hf
    · rename_i v hv
      have hgd : (replicaSegs? e r).getD [] = segs := by rw [hsegs]; rfl
      have hlam : s < (Nat.max e.lamport s + 1) % U32 := by
        have hmax : Nat.max e.lamport s < U32 - 1 := by
          have h1 : e.lamport < U32 - 1 := by omega
          have h2 : s < U32 - 1 := by omega
          exact Nat.max_lt.mpr ⟨h1, h2⟩
        have hmod : (Nat.max e.lamport s + 1) % U32 = Nat.max e.lamport s + 1 :=
          Nat.mod_eq_of_lt (by omega)
        rw [hmod]
        exact Nat.lt_succ_of_le (Nat.le_max_right _ _)
      have hlen : s < segs.length := get?_some_lt s segs _ hv
      have hslot : (storeSlots e r s).get? s = Option.some (Option.some v) := by
        unfold storeSlots
        rw [hgd, resizeTo_get?_eq _ _ _ hlam hlen, hv]
      unfold storeOp
      rw [hslot]
    · exact absurd hf (by simp)

/-- C8 amended.  Duplicate OperationID is rejected, not a no-op: applying
an Insertion or a Deletion whose (replica, stamp) slot is already filled
makes the engine hit the DuplicateStamp slot assertion (abort per the
error policy), since both store the operation before doing anything else. -/
theorem duplicate_opid_rejected (e : Engine) (r : RID) (s : Nat)
    (a b : WAnchor) (txt : List Nat) (hl : e.lamport + 1 < U32)
    (hs : s + 1 < U32) (hf : slotFilled e r s = true) :
    engineInsert e r s a txt = Except.error "duplicate stamp slot" ∧
    engineDel e r s a b = Except.error "duplicate stamp slot" := by
  have hst := storeOp_duplicate e r s
  constructor
  · unfold engineInsert
    rw [hst _ hl hs hf]
    rfl
  · unfold engineDel
    rw [hst _ hl hs hf]
    rfl

/-- Witness for the C8 amended theorem: re-storing the sentinel slot of a
fresh engine is rejected. -/
theorem duplicate_opid_rejected_witness :
    engineW.lamport + 1 < U32 ∧ (0 : Nat) + 1 < U32 ∧
    slotFilled engineW 7 0 = true ∧
    (engineInsert engineW 7 0 ⟨7, 0, 0⟩ [97] = Except.error "duplicate stamp slot" ∧
     engineDel engineW 7 0 ⟨7, 0, 0⟩ ⟨7, 0, 1⟩ = Except.error "duplicate stamp slot") :=
  ⟨by decide, by decide, by decide,
   duplicate_opid_rejected engineW 7 0 ⟨7, 0, 0⟩ ⟨7, 0, 1⟩ [97]
     (by decide) (by decide) (by decide)⟩

/-- C8 counterexample.  A second apply of the very operation already
applied (same OperationID) fails with the DuplicateStamp assertion
instead of leaving the engine unchanged without error. -/
theorem duplicate_apply_fails :
    errOf (applyOps 7 [opI1, opI1]) = Option.some "duplicate stamp slot" ∧
    (applyOps 7 [opI1]).toOption.isSome = true := by decide

/-- C1.  Convergence fails: two fresh engines with the same local replica
apply the same multiset of three operations, all parents resolvable at
application time, in two different orders and end with different
documents, because an insert landing inside an already-applied active
delete is left visible while the delete applied afterwards hides it. -/
theorem convergence_counterexample :
    (applyOps 7 [opI1, opI3, opD2]).toOption.map engineToString =
      Option.some (asciiBytes "ad") ∧
    (applyOps 7 [opI1, opD2, opI3]).toOption.map engineToString =
      Option.some (asciiBytes "aXd") ∧
    asciiBytes "ad" ≠ asciiBytes "aXd" := by decide

/-- C2.  Tombstone invariant fails: after insert abcd, delete [1,3) and an
insert of X strictly inside the deleted interval, the X piece (id 6) is
covered by the still-active deletion (7,2) yet carries a null tombstone
instead of that maximal covering deletion. -/
theorem tombstone_invariant_counterexample :
    (applyOps 7 [opI1, opD2, opI3]).toOption.bind (fun e =>
      (pieceByPid e 6).map (fun p =>
        (p.tomb, coversPiece e ⟨7, 2⟩ p, isActiveDeletion e ⟨7, 2⟩))) =
    Option.some (Option.none, true, true) := by decide

/-- C3.  Undoing an insertion does not hide the run: undoInsertion stores
its synthetic deletion at the (replica, stamp) of the target insert
itself, so the very first undo of any insert trips the DuplicateStamp
slot assertion and aborts; the text of the insert was visible before. -/
theorem undo_insertion_duplicate_slot :
    (applyOps 7 [opI1ab]).toOption.map engineToString =
      Option.some (asciiBytes "ab") ∧
    errOf (applyOps 7 [opI1ab, opU2i]) = Option.some "duplicate stamp slot" := by decide

/-- C4.  Undo then redo of an applied delete does not restore the
document: with an insert made inside the active interval of the delete,
the string before the undo is aXd, but redo re-walks the interval and
tombstones the inserted piece as well, leaving ad. -/
theorem delete_undo_redo_not_inverse :
    (applyOps 7 [opI1, opD2, opI3]).toOption.map engineToString =
      Option.some (asciiBytes "aXd") ∧
    (applyOps 7 [opI1, opD2, opI3, opU4, opR5]).toOption.map engineToString =
      Option.some (asciiBytes "ad") ∧
    asciiBytes "aXd" ≠ asciiBytes "ad" := by decide

/-- C5.  An insert resolved strictly inside the interval of an active
delete gets a null tombstone and its text X stays visible in toString,
instead of inheriting the covering operation as its tombstone. -/
theorem covered_insert_stays_visible :
    (applyOps 7 [opI1, opD2, opI3]).toOption.map (fun e =>
      ((pieceByPid e 6).map Piece.tomb, (engineToString e).contains 88)) =
    Option.some (Option.some Option.none, true) := by decide

/-- C7.  A missing-parent insert is dropped without changing the visible
document, but the engine stores the operation before resolving the
anchor, so retrying the identical operation after the causal
prerequisite arrived hits the DuplicateStamp assertion instead of
succeeding. -/
theorem missing_parent_retry_fails :
    (applyOps 7 [opIBad]).toOption.map (fun e =>
      (engineToString e, engineSize e)) = Option.some ([], 0) ∧
    errOf (applyOps 7 [opIBad, opIQ, opIBad]) =
      Option.some "duplicate stamp slot" := by decide

end Pieces
